import Mathlib

/-!
Shallow embedding of `src/utils.rs` of the restls repository: the TLS record
codec (`TLSCodec`), the generic length-prefix readers, the byte-wise XOR
helper, and the pure data-plane cores of the two relay strategies
(`copy_bidirectional` and `copy_bidirectional_fallback`).

Bytes are modelled as natural numbers; every value read from a buffer as a
`u8` is taken modulo 256, and the `u16` length arithmetic is written with the
same shift/or operations as the source.  Rust panics (assertion failures,
out-of-bounds indexing and slicing) are modelled by `Option`: a `none` result
means the operation is fatal.  `Vec` capacity is modelled by a `cap` field
recording the minimal guarantee of `with_capacity` / `reserve` /
`extend_from_slice`; `set_len` does not touch it, exactly as in Rust.

The `while` loops of the source are written as fuel-indexed structural
recursions; the top-level entry points supply fuel that is proved (or easily
seen) sufficient, so the embedded functions compute by `decide` / `rfl`.
-/

namespace Restls

/-- Big-endian 16-bit value assembled from two bytes, as in the source's
`(b3 as u16) << 8 | b4 as u16`; the `% 256` records that the inputs are
`u8` values. -/
def be16 (hi lo : Nat) : Nat := ((hi % 256) <<< 8) ||| (lo % 256)

theorem be16_eq (hi lo : Nat) : be16 hi lo = (hi % 256) * 256 + lo % 256 := by
  have h : lo % 256 < 2 ^ 8 := by
    have := Nat.mod_lt lo (show 0 < 256 by norm_num)
    simpa using this
  calc be16 hi lo
      = (hi % 256) * 2 ^ 8 ||| lo % 256 := by rw [be16, Nat.shiftLeft_eq]
    _ = 2 ^ 8 * (hi % 256) ||| lo % 256 := by rw [Nat.mul_comm]
    _ = 2 ^ 8 * (hi % 256) + lo % 256 := (Nat.mul_add_lt_is_or h _).symm
    _ = (hi % 256) * 256 + lo % 256 := by ring_nf

theorem be16_lt (hi lo : Nat) : be16 hi lo < 65536 := by
  rw [be16_eq]
  have h1 : hi % 256 < 256 := Nat.mod_lt _ (by norm_num)
  have h2 : lo % 256 < 256 := Nat.mod_lt _ (by norm_num)
  omega

/-- `TLSCodec::peek_record_length`:
`5 + ((buf[cursor + 3] as usize) << 8 | buf[cursor + 4] as usize)`.
The same expression computes the record span `5 + record_len` inside the
decode scan loop. -/
def peek_record_length (buf : List Nat) (cursor : Nat) : Nat :=
  5 + be16 (buf.getD (cursor + 3) 0) (buf.getD (cursor + 4) 0)

theorem peek_record_length_ge (buf : List Nat) (cursor : Nat) :
    5 ≤ peek_record_length buf cursor := Nat.le_add_right 5 _

/-- The scan loop of `TLSCodec::decode` in enabled mode:
`while cursor + 5 < src.len() { let record_len = ...;
 if src.len() < cursor + 5 + record_len { break; } cursor += 5 + record_len; }`.
Fuel-indexed; since every iteration advances `cursor` by at least 5,
`src.length` fuel (as supplied by `tls_scan`) is always sufficient. -/
def scan_loop (src : List Nat) : Nat → Nat → Nat
  | 0, cursor => cursor
  | fuel + 1, cursor =>
    if cursor + 5 < src.length then
      if src.length < cursor + peek_record_length src cursor then cursor
      else scan_loop src fuel (cursor + peek_record_length src cursor)
    else cursor

/-- The final value of the scan cursor in one decode cycle. -/
def tls_scan (src : List Nat) : Nat := scan_loop src src.length 0

/-- State of `TLSCodec`.  `cap` models the allocated capacity of the `Vec`. -/
structure TLSCodec where
  buf : List Nat
  cursor : Nat
  enable_codec : Bool
  cap : Nat
deriving DecidableEq

/-- `TLSCodec::new()`. -/
def TLSCodec.new : TLSCodec :=
  { buf := [], cursor := 0, enable_codec := true, cap := 0x2000 }

/-- `TLSCodec::reset`: asserts `cursor == buf.len()` (modelled by `none` on
violation), then `set_len(0)` and `cursor = 0`; the allocation (`cap`) is
untouched. -/
def TLSCodec.reset (c : TLSCodec) : Option TLSCodec :=
  if c.cursor = c.buf.length then some { c with buf := [], cursor := 0 } else none

/-- `TLSCodec::has_next`. -/
def TLSCodec.has_next (c : TLSCodec) : Bool := c.cursor < c.buf.length

/-- `TLSCodec::skip_to_end`. -/
def TLSCodec.skip_to_end (c : TLSCodec) : TLSCodec := { c with cursor := c.buf.length }

/-- `TLSCodec::raw_buf`: asserts `cursor == buf.len()` and returns the whole
buffered region. -/
def TLSCodec.raw_buf (c : TLSCodec) : Option (List Nat) :=
  if c.cursor = c.buf.length then some c.buf else none

/-- `TLSCodec::has_content`. -/
def TLSCodec.has_content (c : TLSCodec) : Bool := !c.buf.isEmpty

/-- `<TLSCodec as Decoder>::decode`.  The result triple is the new codec
state, what remains of `src`, and the produced item (`true` for
`Ok(Some(()))`, `false` for `Ok(None)`, i.e. "no data yet").  `none` models
the panic of the initial `reset` call. -/
def TLSCodec.decode (c : TLSCodec) (src : List Nat) : Option (TLSCodec × List Nat × Bool) :=
  match c.reset with
  | none => none
  | some c =>
    if !c.enable_codec then
      if src.length = 0 then some (c, src, false)
      else
        some ({ c with buf := c.buf ++ src,
                       cap := max c.cap (c.buf.length + src.length) }, [], true)
    else if src.length < 5 then some (c, src, false)
    else
      let cursor := tls_scan src
      if cursor = 0 then some (c, src, false)
      else
        some ({ c with buf := src.take cursor,
                       cap := max c.cap (c.buf.length + cursor) },
              src.drop cursor, true)

/-- `xor_bytes(secret, msg)`: the loop
`for i in 0..min(secret.len(), msg.len()) { msg[i] ^= secret[i] }`, written as
simultaneous recursion over the two lists. -/
def xor_bytes : List Nat → List Nat → List Nat
  | _, [] => []
  | [], m :: ms => m :: ms
  | s :: ss, m :: ms => (m ^^^ s) :: xor_bytes ss ms

/-- The fold of `read_length_padded_header`:
`for i in 0..N { len = (len << 8) | (tmp[i] as usize) }`. -/
def be_bytes_val (l : List Nat) : Nat :=
  l.foldl (fun len b => (len <<< 8) ||| (b % 256)) 0

/-- `read_length_padded_header::<N>`: copies the first `N` bytes into
`tmp[..N]` (the stack array `tmp` has size 8, so `N > 8` panics, and so does
a source shorter than `N` bytes) and folds them big-endian. -/
def read_length_padded_header (N : Nat) (buf : List Nat) : Option (Nat × List Nat) :=
  if 8 < N then none
  else if buf.length < N then none
  else some (be_bytes_val (buf.take N), buf.drop N)

/-- `read_length_padded::<N>`: reads the header, asserts
`copy_to.len() >= len`, then `copy_to_slice(&mut copy_to[..len])` (which
itself panics when fewer than `len` bytes remain) and returns `len`.  The
result is `(len, remaining source, updated copy_to)`. -/
def read_length_padded (N : Nat) (buf : List Nat) (copy_to : List Nat) :
    Option (Nat × List Nat × List Nat) :=
  match read_length_padded_header N buf with
  | none => none
  | some (len, rest) =>
    if copy_to.length < len then none
    else if rest.length < len then none
    else some (len, rest.drop len, rest.take len ++ copy_to.drop len)

/-- In-place write of `v` into `l` at offset `i`, as performed by
`copy_from_slice` on `l[i .. i + v.len()]`. -/
def write_slice (l : List Nat) (i : Nat) (v : List Nat) : List Nat :=
  l.take i ++ v ++ l.drop (i + v.length)

/-- The working buffer of `copy_bidirectional` right after
`let mut out_buf = [0; 0x2000]; out_buf[..3].copy_from_slice(&[0x17, 0x03, 0x03]);`. -/
def out_buf_init : List Nat :=
  write_slice (List.replicate 0x2000 0) 0 [0x17, 0x03, 0x03]

/-- `(n as u16).to_be_bytes()`. -/
def be_u16 (n : Nat) : List Nat := [n % 65536 / 256, n % 65536 % 256]

/-- One back-to-front iteration of the `copy_bidirectional` relay loop: `n`
bytes (`payload`) were read from `outbound` into `out_buf[5..]`; `n == 0` is
fatal (`none`); otherwise the length is written into `out_buf[3..5]` and
`out_buf[..n + 5]` is sent to the front connection.  The result is the
updated working buffer and the bytes written to the front connection. -/
def back_to_front_step (out_buf payload : List Nat) : Option (List Nat × List Nat) :=
  if payload.length = 0 then none
  else
    let buf1 := write_slice out_buf 5 payload
    let buf2 := write_slice buf1 3 (be_u16 payload.length)
    some (buf2, buf2.take (payload.length + 5))

/-- The sub-list `l[a .. b)`. -/
def listSegment (l : List Nat) (a b : Nat) : List Nat := (l.take b).drop a

/-- The drain loop at the start of `copy_bidirectional`:
`while inbound.codec().has_next() { outbound.write_all(&...next_record()[content_offset..]); content_offset = 5; }`.
`next_record` returns `buf[cursor .. cursor + peek_record_length()]` and
advances the cursor; reading the length bytes or slicing past the end of
`buf` panics (`none`), and so does the `view[off..]` slice when `off`
exceeds the record view's length (Rust `RangeFrom` slicing requires
`start <= len`).  The result is the codec after the loop and the
concatenation of everything written to the back connection.  Fuel-indexed;
each iteration advances the cursor by at least 5 bytes. -/
def drain_loop : Nat → TLSCodec → Nat → Option (TLSCodec × List Nat)
  | 0, c, _ => if c.cursor < c.buf.length then none else some (c, [])
  | fuel + 1, c, off =>
    if c.cursor < c.buf.length then
      if c.buf.length < c.cursor + 5 then none
      else
        let len := peek_record_length c.buf c.cursor
        if c.buf.length < c.cursor + len then none
        else
          let view := listSegment c.buf c.cursor (c.cursor + len)
          if view.length < off then none
          else
            match drain_loop fuel { c with cursor := c.cursor + len } 5 with
            | none => none
            | some (c', out) => some (c', view.drop off ++ out)
    else some (c, [])

/-- The drain loop with sufficient fuel. -/
def drain_records (c : TLSCodec) (off : Nat) : Option (TLSCodec × List Nat) :=
  drain_loop (c.buf.length + 1) c off

/-- The full pre-relay phase of `copy_bidirectional`: the drain loop followed
by `inbound.codec_mut().reset()`. -/
def unwrap_drain (c : TLSCodec) (off : Nat) : Option (TLSCodec × List Nat) :=
  match drain_records c off with
  | none => none
  | some (c', out) =>
    match c'.reset with
    | none => none
    | some c'' => some (c'', out)

/-- A TLS record as structured data: content type, two version bytes, and the
payload.  `flat` is its wire form. -/
structure TLSRecord where
  rtype : Nat
  ver1 : Nat
  ver2 : Nat
  payload : List Nat
deriving DecidableEq

/-- Wire form of a record: 5-byte header (type, version, big-endian length)
followed by the payload. -/
def TLSRecord.flat (r : TLSRecord) : List Nat :=
  r.rtype :: r.ver1 :: r.ver2 :: r.payload.length / 256 :: r.payload.length % 256 :: r.payload

/-- Concatenated wire form of a batch of records. -/
def recordsFlat (rs : List TLSRecord) : List Nat := (rs.map TLSRecord.flat).flatten

/-- The bytes the drain loop writes for a batch of records: the first record
minus its first `off` bytes, every later record minus its 5-byte header. -/
def drain_out : List TLSRecord → Nat → List Nat
  | [], _ => []
  | r :: rest, off => r.flat.drop off ++ drain_out rest 5

/-- The pre-relay phase of `copy_bidirectional_fallback`: disable both codecs,
then for each side with buffered content `skip_to_end` and forward `raw_buf`
verbatim to the other side's raw connection.  The result is the two codec
states on entry to the relay loop, the bytes written to the back (outbound)
connection, and the bytes written to the front (inbound) connection. -/
def fallback_prelude (inbound outbound : TLSCodec) :
    Option (TLSCodec × TLSCodec × List Nat × List Nat) :=
  let inbound := { inbound with enable_codec := false }
  let outbound := { outbound with enable_codec := false }
  if inbound.has_content then
    let inbound := inbound.skip_to_end
    match inbound.raw_buf with
    | none => none
    | some toOut =>
      if outbound.has_content then
        let outbound := outbound.skip_to_end
        match outbound.raw_buf with
        | none => none
        | some toIn => some (inbound, outbound, toOut, toIn)
      else some (inbound, outbound, toOut, [])
  else
    if outbound.has_content then
      let outbound := outbound.skip_to_end
      match outbound.raw_buf with
      | none => none
      | some toIn => some (inbound, outbound, [], toIn)
    else some (inbound, outbound, [], [])

/-- `SpanRec src a b`: the byte range `[a, b)` of `src` is a concatenation of
zero or more whole TLS records, each lying entirely inside `src`. -/
inductive SpanRec (src : List Nat) : Nat → Nat → Prop where
  | nil (a : Nat) : SpanRec src a a
  | cons (a b : Nat) (hfit : a + peek_record_length src a ≤ src.length)
      (rest : SpanRec src (a + peek_record_length src a) b) : SpanRec src a b

/-! ## Claim C5: reset / raw_buf invariant -/

/-- C5: calling `reset()` or `raw_buf()` while `cursor ≠ buf.len()` is fatal;
with `cursor = buf.len()`, `reset()` leaves the buffer logically empty
(length 0, cursor 0) with the allocated capacity preserved, and `raw_buf()`
returns the full buffered region. -/
theorem c5_reset_raw_buf (c : TLSCodec) :
    (c.cursor ≠ c.buf.length → c.reset = none ∧ c.raw_buf = none) ∧
    (c.cursor = c.buf.length →
      c.reset = some { c with buf := [], cursor := 0 } ∧
      (∀ c', c.reset = some c' → c'.buf = [] ∧ c'.cursor = 0 ∧ c'.cap = c.cap) ∧
      c.raw_buf = some c.buf) := by
  constructor
  · intro h
    simp [TLSCodec.reset, TLSCodec.raw_buf, h]
  · intro h
    refine ⟨by simp [TLSCodec.reset, h], ?_, by simp [TLSCodec.raw_buf, h]⟩
    intro c' hc'
    simp only [TLSCodec.reset, if_pos h, Option.some.injEq] at hc'
    subst hc'
    exact ⟨rfl, rfl, rfl⟩

/-- Witness for C5 at concrete codec states. -/
theorem c5_witness :
    ((⟨[1, 2], 1, true, 7⟩ : TLSCodec).reset = none ∧
      (⟨[1, 2], 1, true, 7⟩ : TLSCodec).raw_buf = none) ∧
    (⟨[1, 2], 2, true, 7⟩ : TLSCodec).raw_buf = some [1, 2] :=
  ⟨(c5_reset_raw_buf ⟨[1, 2], 1, true, 7⟩).1 (by decide),
   ((c5_reset_raw_buf ⟨[1, 2], 2, true, 7⟩).2 rfl).2.2⟩

/-! ## Claim C10: decode requires full consumption of the previous batch -/

/-- C10: `decode` begins with `reset()`, so it is fatal exactly when
previously decoded records remain unconsumed (`cursor ≠ buf.len()`); when
the previous batch was fully consumed, `decode` returns a value. -/
theorem c10_decode_requires_consumed (c : TLSCodec) (src : List Nat) :
    (c.cursor ≠ c.buf.length → c.decode src = none) ∧
    (c.cursor = c.buf.length → ∃ r, c.decode src = some r) := by
  constructor
  · intro h
    simp [TLSCodec.decode, TLSCodec.reset, h]
  · intro h
    simp only [TLSCodec.decode, TLSCodec.reset, if_pos h]
    split_ifs <;> exact ⟨_, rfl⟩

/-- Witness for C10: decode is fatal on an unconsumed batch, fine on a
consumed one. -/
theorem c10_witness :
    (⟨[1, 2, 3, 4, 5], 0, true, 0⟩ : TLSCodec).decode [] = none ∧
    ∃ r, (⟨[1, 2, 3, 4, 5], 5, true, 0⟩ : TLSCodec).decode [] = some r :=
  ⟨(c10_decode_requires_consumed ⟨[1, 2, 3, 4, 5], 0, true, 0⟩ []).1 (by decide),
   (c10_decode_requires_consumed ⟨[1, 2, 3, 4, 5], 5, true, 0⟩ []).2 rfl⟩

/-! ## Claim C6: disabled mode -/

/-- C6: with `enable_codec = false`, decode on a non-empty source moves all
available bytes into the buffer as one chunk with cursor 0, consumes the
source fully and signals records-ready; on an empty source it signals
no-data-yet without consuming. -/
theorem c6_disabled_mode (c : TLSCodec) (src : List Nat)
    (hpre : c.cursor = c.buf.length) (hen : c.enable_codec = false) :
    (src = [] → c.decode src = some ({ c with buf := [], cursor := 0 }, src, false)) ∧
    (src ≠ [] → ∃ c', c.decode src = some (c', [], true) ∧
      c'.buf = src ∧ c'.cursor = 0 ∧ c'.enable_codec = false) := by
  constructor
  · intro h
    subst h
    simp [TLSCodec.decode, TLSCodec.reset, hpre, hen]
  · intro h
    refine ⟨{ c with buf := src, cursor := 0, cap := max c.cap src.length }, ?_, rfl, rfl, hen⟩
    have hlen : src.length ≠ 0 := by simpa using fun hl => h (List.length_eq_zero.mp hl)
    simp [TLSCodec.decode, TLSCodec.reset, hpre, hen, hlen]

/-- Witness for C6 on a concrete disabled codec and source. -/
theorem c6_witness :
    ∃ c', (⟨[9], 1, false, 5⟩ : TLSCodec).decode [1, 2] = some (c', [], true) ∧
      c'.buf = [1, 2] ∧ c'.cursor = 0 ∧ c'.enable_codec = false :=
  (c6_disabled_mode ⟨[9], 1, false, 5⟩ [1, 2] rfl rfl).2 (by decide)

/-! ## Claim C8: xor_bytes -/

/-- C8: `xor_bytes secret msg` XORs `msg[i]` with `secret[i]` for every
`i < min (len secret) (len msg)`, leaves every later byte of `msg`
unchanged, and applying it twice with the same secret restores `msg`. -/
theorem c8_xor_bytes (secret msg : List Nat) :
    (xor_bytes secret msg).length = msg.length ∧
    (∀ i, i < min secret.length msg.length →
      (xor_bytes secret msg).getD i 0 = msg.getD i 0 ^^^ secret.getD i 0) ∧
    (∀ i, min secret.length msg.length ≤ i →
      (xor_bytes secret msg).getD i 0 = msg.getD i 0) ∧
    xor_bytes secret (xor_bytes secret msg) = msg := by
  induction secret generalizing msg with
  | nil =>
    cases msg with
    | nil => exact ⟨rfl, fun i hi => by simp at hi, fun i _ => rfl, rfl⟩
    | cons m ms => exact ⟨rfl, fun i hi => by simp at hi, fun i _ => rfl, rfl⟩
  | cons s ss ih =>
    cases msg with
    | nil => exact ⟨rfl, fun i hi => by simp at hi, fun i _ => rfl, rfl⟩
    | cons m ms =>
      obtain ⟨ih1, ih2, ih3, ih4⟩ := ih ms
      refine ⟨by simpa [xor_bytes] using ih1, ?_, ?_, ?_⟩
      · intro i hi
        cases i with
        | zero => simp [xor_bytes]
        | succ j =>
          simp only [xor_bytes, List.getD_cons_succ]
          exact ih2 j (by simp only [List.length_cons] at hi; omega)
      · intro i hi
        cases i with
        | zero => simp only [List.length_cons] at hi; omega
        | succ j =>
          simp only [xor_bytes, List.getD_cons_succ]
          exact ih3 j (by simp only [List.length_cons] at hi; omega)
      · simp [xor_bytes, ih4, Nat.xor_cancel_right]

/-- Witness for C8 at concrete lists. -/
theorem c8_witness :
    (xor_bytes [1, 2] [3, 4, 5]).length = ([3, 4, 5] : List Nat).length ∧
    (∀ i, i < min ([1, 2] : List Nat).length ([3, 4, 5] : List Nat).length →
      (xor_bytes [1, 2] [3, 4, 5]).getD i 0 =
        ([3, 4, 5] : List Nat).getD i 0 ^^^ ([1, 2] : List Nat).getD i 0) ∧
    (∀ i, min ([1, 2] : List Nat).length ([3, 4, 5] : List Nat).length ≤ i →
      (xor_bytes [1, 2] [3, 4, 5]).getD i 0 = ([3, 4, 5] : List Nat).getD i 0) ∧
    xor_bytes [1, 2] (xor_bytes [1, 2] [3, 4, 5]) = [3, 4, 5] :=
  c8_xor_bytes [1, 2] [3, 4, 5]

/-! ## Claim C9: read_length_padded -/

/-- C9: when the source holds at least `N + len` bytes (`len` the big-endian
value of its first `N` bytes, `N` at most the 8-byte scratch array),
`read_length_padded` asserts iff the destination is smaller than `len`;
otherwise it consumes the `N` header bytes plus exactly `len` payload
bytes, copies them into the destination's first `len` positions, and
returns `len`. -/
theorem c9_read_length_padded (N : Nat) (buf copy_to : List Nat)
    (hN : N ≤ 8) (hlen : N + be_bytes_val (buf.take N) ≤ buf.length) :
    (copy_to.length < be_bytes_val (buf.take N) →
      read_length_padded N buf copy_to = none) ∧
    (be_bytes_val (buf.take N) ≤ copy_to.length →
      read_length_padded N buf copy_to =
        some (be_bytes_val (buf.take N),
          buf.drop (N + be_bytes_val (buf.take N)),
          (buf.drop N).take (be_bytes_val (buf.take N)) ++
            copy_to.drop (be_bytes_val (buf.take N)))) := by
  have hbufN : ¬ buf.length < N := by omega
  have hN8 : ¬ 8 < N := by omega
  constructor
  · intro h
    simp [read_length_padded, read_length_padded_header, hbufN, hN8, h]
  · intro h
    have h1 : ¬ copy_to.length < be_bytes_val (buf.take N) := by omega
    have h2 : ¬ (buf.drop N).length < be_bytes_val (buf.take N) := by
      simp only [List.length_drop]
      omega
    simp [read_length_padded, read_length_padded_header, hbufN, hN8, h1, h2,
      List.drop_drop]
    omega

/-- Witness for C9: a 2-byte length prefix declaring 2 payload bytes. -/
theorem c9_witness :
    read_length_padded 2 [0, 2, 9, 8, 7] [0, 0, 0] = some (2, [7], [9, 8, 0]) := by
  rw [(c9_read_length_padded 2 [0, 2, 9, 8, 7] [0, 0, 0] (by norm_num)
    (by decide)).2 (by decide)]
  decide

/-! ## Claim C7: passthrough relay prelude -/

/-- C7: `copy_bidirectional_fallback` first disables record parsing on both
codecs, then for each side that has buffered content force-consumes it with
`skip_to_end` and forwards the entire buffered region to the other side's
raw connection, before entering the relay loop. -/
theorem c7_fallback_prelude (inbound outbound : TLSCodec) :
    fallback_prelude inbound outbound = some
      ((if inbound.has_content then
          TLSCodec.skip_to_end { inbound with enable_codec := false }
        else { inbound with enable_codec := false }),
       (if outbound.has_content then
          TLSCodec.skip_to_end { outbound with enable_codec := false }
        else { outbound with enable_codec := false }),
       (if inbound.has_content then inbound.buf else []),
       (if outbound.has_content then outbound.buf else [])) := by
  cases h1 : inbound.has_content <;> cases h2 : outbound.has_content <;>
    simp_all [fallback_prelude, TLSCodec.has_content, TLSCodec.skip_to_end,
      TLSCodec.raw_buf]

/-! ## Scan-loop lemmas -/

theorem scan_loop_mono (src : List Nat) :
    ∀ (fuel cursor : Nat), cursor ≤ scan_loop src fuel cursor := by
  intro fuel
  induction fuel with
  | zero => intro cursor; exact le_refl _
  | succ f ih =>
    intro cursor
    simp only [scan_loop]
    split_ifs with h1 h2
    · exact le_refl _
    · exact le_trans (Nat.le_add_right _ _) (ih _)
    · exact le_refl _

theorem scan_loop_le (src : List Nat) :
    ∀ (fuel cursor : Nat), cursor ≤ src.length →
      scan_loop src fuel cursor ≤ src.length := by
  intro fuel
  induction fuel with
  | zero => intro cursor h; exact h
  | succ f ih =>
    intro cursor h
    simp only [scan_loop]
    split_ifs with h1 h2
    · exact h
    · exact ih _ (by omega)
    · exact h

theorem scan_loop_spanrec (src : List Nat) :
    ∀ (fuel cursor : Nat), SpanRec src cursor (scan_loop src fuel cursor) := by
  intro fuel
  induction fuel with
  | zero => intro cursor; exact SpanRec.nil cursor
  | succ f ih =>
    intro cursor
    simp only [scan_loop]
    split_ifs with h1 h2
    · exact SpanRec.nil cursor
    · exact SpanRec.cons _ _ (by omega) (ih _)
    · exact SpanRec.nil cursor

/-! ## Claim C1: enabled-mode scan (corrected) -/

/-- C1 counterexample: `[0x17, 0x03, 0x03, 0x00, 0x00]` is one complete
record — its full span `5 + 0` fits within the 5 available bytes — yet a
decode cycle on a fresh codec signals no-data-yet and consumes nothing,
because the scan loop requires `cursor + 5 < src.len()` strictly. -/
theorem c1_counterexample :
    peek_record_length [0x17, 0x03, 0x03, 0x00, 0x00] 0 ≤
      ([0x17, 0x03, 0x03, 0x00, 0x00] : List Nat).length ∧
    TLSCodec.new.decode [0x17, 0x03, 0x03, 0x00, 0x00] =
      some (TLSCodec.new, [0x17, 0x03, 0x03, 0x00, 0x00], false) := by
  decide

/-- C1 (amended): at any scan position `p` of an enabled-mode decode cycle
(any positive fuel; the cycle runs with fuel `src.length ≥ 1`), if at least
one byte beyond the record's 5-byte header is available
(`p + 5 < src.length`, automatic whenever the declared length is nonzero)
and the full record span fits within the available bytes, then the scan
advances past that record; and whenever the scan of a cycle is nonzero,
decode consumes the scanned span into the codec buffer in that cycle.  A
complete zero-length record ending exactly at the end of the available
bytes is not consumed in that cycle (see `c1_counterexample`); it is
consumed only once at least one further byte is available. -/
theorem c1_scan_advances (src : List Nat) (fuel p : Nat)
    (hfuel : 1 ≤ fuel) (hpos : p + 5 < src.length)
    (hfit : p + peek_record_length src p ≤ src.length) :
    p + peek_record_length src p ≤ scan_loop src fuel p ∧
    (∀ c : TLSCodec, c.cursor = c.buf.length → c.enable_codec = true →
      0 < tls_scan src →
      ∃ c', c.decode src = some (c', src.drop (tls_scan src), true) ∧
        c'.buf = src.take (tls_scan src)) := by
  constructor
  · cases fuel with
    | zero => omega
    | succ f =>
      simp only [scan_loop, if_pos hpos]
      rw [if_neg (by omega)]
      exact scan_loop_mono src f _
  · intro c hpre hen h0
    have h5 : ¬ src.length < 5 := by omega
    have h0' : ¬ tls_scan src = 0 := by omega
    refine ⟨{ c with buf := src.take (tls_scan src), cursor := 0,
                     cap := max c.cap (tls_scan src) }, ?_, rfl⟩
    simp [TLSCodec.decode, TLSCodec.reset, hpre, hen, h5, h0']

/-- Witness for C1 (amended) on a one-record source with payload length 1. -/
theorem c1_witness :
    0 + peek_record_length [0x17, 0x03, 0x03, 0x00, 0x01, 0x41] 0 ≤
      scan_loop [0x17, 0x03, 0x03, 0x00, 0x01, 0x41] 6 0 ∧
    (∀ c : TLSCodec, c.cursor = c.buf.length → c.enable_codec = true →
      0 < tls_scan [0x17, 0x03, 0x03, 0x00, 0x01, 0x41] →
      ∃ c', c.decode [0x17, 0x03, 0x03, 0x00, 0x01, 0x41] =
          some (c', List.drop (tls_scan [0x17, 0x03, 0x03, 0x00, 0x01, 0x41])
            [0x17, 0x03, 0x03, 0x00, 0x01, 0x41], true) ∧
        c'.buf = List.take (tls_scan [0x17, 0x03, 0x03, 0x00, 0x01, 0x41])
          [0x17, 0x03, 0x03, 0x00, 0x01, 0x41]) :=
  c1_scan_advances [0x17, 0x03, 0x03, 0x00, 0x01, 0x41] 6 0
    (by norm_num) (by decide) (by decide)

/-! ## Claim C2: decode frame effect -/

/-- C2: in enabled mode, a decode cycle that signals no-data-yet (fewer than
5 bytes, or a zero scan) consumes nothing from the source; a cycle that
signals records-ready removes exactly the scanned span — a concatenation of
whole records — into the buffer, leaving every byte beyond that span in the
source. -/
theorem c2_decode_frame (c : TLSCodec) (src : List Nat)
    (hpre : c.cursor = c.buf.length) (hen : c.enable_codec = true) :
    (src.length < 5 ∨ tls_scan src = 0 →
      c.decode src = some ({ c with buf := [], cursor := 0 }, src, false)) ∧
    (∀ c' src', c.decode src = some (c', src', true) →
      src' = src.drop (tls_scan src) ∧ c'.buf = src.take (tls_scan src) ∧
      c'.cursor = 0 ∧ 0 < tls_scan src ∧ tls_scan src ≤ src.length ∧
      SpanRec src 0 (tls_scan src)) := by
  have hspan : SpanRec src 0 (tls_scan src) := scan_loop_spanrec src src.length 0
  have hle : tls_scan src ≤ src.length := scan_loop_le src src.length 0 (Nat.zero_le _)
  constructor
  · intro h
    rcases h with h | h
    · simp [TLSCodec.decode, TLSCodec.reset, hpre, hen, h]
    · by_cases h5 : src.length < 5
      · simp [TLSCodec.decode, TLSCodec.reset, hpre, hen, h5]
      · simp [TLSCodec.decode, TLSCodec.reset, hpre, hen, h5, h]
  · intro c' src' hdec
    by_cases h5 : src.length < 5
    · simp [TLSCodec.decode, TLSCodec.reset, hpre, hen, h5] at hdec
    · by_cases h0 : tls_scan src = 0
      · simp [TLSCodec.decode, TLSCodec.reset, hpre, hen, h5, h0] at hdec
      · simp only [TLSCodec.decode, TLSCodec.reset, if_pos hpre, hen,
          Bool.not_true, Bool.false_eq_true, if_false, if_neg h5, if_neg h0,
          Option.some.injEq, Prod.mk.injEq] at hdec
        obtain ⟨hc', hsrc', -⟩ := hdec
        subst hc'
        exact ⟨hsrc'.symm, rfl, rfl, by omega, hle, hspan⟩

/-- Witness for C2 on a concrete source: one whole record plus a truncated
trailing byte. -/
theorem c2_witness :
    ([0x41] : List Nat) =
      List.drop (tls_scan [0x17, 0x03, 0x03, 0x00, 0x00, 0x41])
        [0x17, 0x03, 0x03, 0x00, 0x00, 0x41] ∧
    (⟨[0x17, 0x03, 0x03, 0x00, 0x00], 0, true, 0x2000⟩ : TLSCodec).buf =
      List.take (tls_scan [0x17, 0x03, 0x03, 0x00, 0x00, 0x41])
        [0x17, 0x03, 0x03, 0x00, 0x00, 0x41] ∧
    (⟨[0x17, 0x03, 0x03, 0x00, 0x00], 0, true, 0x2000⟩ : TLSCodec).cursor = 0 ∧
    0 < tls_scan [0x17, 0x03, 0x03, 0x00, 0x00, 0x41] ∧
    tls_scan [0x17, 0x03, 0x03, 0x00, 0x00, 0x41] ≤
      ([0x17, 0x03, 0x03, 0x00, 0x00, 0x41] : List Nat).length ∧
    SpanRec [0x17, 0x03, 0x03, 0x00, 0x00, 0x41] 0
      (tls_scan [0x17, 0x03, 0x03, 0x00, 0x00, 0x41]) :=
  (c2_decode_frame TLSCodec.new [0x17, 0x03, 0x03, 0x00, 0x00, 0x41] rfl rfl).2
    ⟨[0x17, 0x03, 0x03, 0x00, 0x00], 0, true, 0x2000⟩ [0x41] (by decide)

/-! ## Claim C3: back-to-front re-framing -/

theorem write_slice_length (l v : List Nat) (i : Nat) (h : i + v.length ≤ l.length) :
    (write_slice l i v).length = l.length := by
  simp only [write_slice, List.length_append, List.length_take, List.length_drop]
  omega

theorem out_buf_init_length : out_buf_init.length = 0x2000 := by
  rw [out_buf_init, write_slice_length]
  · rw [List.length_replicate]
  · rw [List.length_replicate]
    norm_num

theorem out_buf_init_take3 : out_buf_init.take 3 = [0x17, 0x03, 0x03] := by
  rw [out_buf_init, write_slice, List.take_zero, List.nil_append]
  exact List.take_left' rfl

/-- C3: one back-to-front iteration of the unwrap relay: a zero-byte read is
fatal; a read of `n` bytes (`n` at most the working-buffer slice
`0x2000 - 5 = 8187`) writes to the front exactly `5 + n` bytes: the constant
prefix `0x17 0x03 0x03`, then `n` as a big-endian 16-bit length, then the
`n` payload bytes unchanged — and the working-buffer invariant (length
`0x2000`, constant first three bytes) is preserved for the next iteration. -/
theorem c3_back_to_front (out_buf payload : List Nat)
    (hlen : out_buf.length = 0x2000)
    (hpre : out_buf.take 3 = [0x17, 0x03, 0x03])
    (hcap : payload.length ≤ 0x2000 - 5) :
    (payload.length = 0 → back_to_front_step out_buf payload = none) ∧
    (0 < payload.length →
      ∃ buf', back_to_front_step out_buf payload =
          some (buf', [0x17, 0x03, 0x03] ++ be_u16 payload.length ++ payload) ∧
        ([0x17, 0x03, 0x03] ++ be_u16 payload.length ++ payload).length
            = 5 + payload.length ∧
        be_u16 payload.length = [payload.length / 256, payload.length % 256] ∧
        buf'.length = 0x2000 ∧ buf'.take 3 = [0x17, 0x03, 0x03]) := by
  constructor
  · intro h
    simp [back_to_front_step, h]
  · intro hn
    have hn0 : ¬ payload.length = 0 := by omega
    have hmod : payload.length % 65536 = payload.length := Nat.mod_eq_of_lt (by omega)
    have hbe : be_u16 payload.length = [payload.length / 256, payload.length % 256] := by
      simp [be_u16, hmod]
    have hbelen : (be_u16 payload.length).length = 2 := by simp [be_u16]
    have htk5 : (out_buf.take 5).length = 5 := by
      simp only [List.length_take]
      omega
    have hb1 : write_slice out_buf 5 payload =
        out_buf.take 5 ++ (payload ++ out_buf.drop (5 + payload.length)) := by
      simp [write_slice]
    have hb1take3 : (write_slice out_buf 5 payload).take 3 = [0x17, 0x03, 0x03] := by
      rw [hb1, List.take_append_of_le_length (by omega), List.take_take]
      simpa using hpre
    have hb1drop5 : (write_slice out_buf 5 payload).drop 5 =
        payload ++ out_buf.drop (5 + payload.length) := by
      rw [hb1]
      exact List.drop_left' htk5
    have hb2 : write_slice (write_slice out_buf 5 payload) 3 (be_u16 payload.length) =
        ([0x17, 0x03, 0x03] ++ be_u16 payload.length ++ payload) ++
          out_buf.drop (5 + payload.length) := by
      calc write_slice (write_slice out_buf 5 payload) 3 (be_u16 payload.length)
          = (write_slice out_buf 5 payload).take 3 ++ be_u16 payload.length ++
              (write_slice out_buf 5 payload).drop 5 := by
            rw [write_slice, hbelen]
        _ = [0x17, 0x03, 0x03] ++ be_u16 payload.length ++
              (payload ++ out_buf.drop (5 + payload.length)) := by
            rw [hb1take3, hb1drop5]
        _ = ([0x17, 0x03, 0x03] ++ be_u16 payload.length ++ payload) ++
              out_buf.drop (5 + payload.length) := by
            simp [List.append_assoc]
    have hPlen : ([0x17, 0x03, 0x03] ++ be_u16 payload.length ++ payload).length
        = payload.length + 5 := by
      simp only [List.length_append, hbelen, List.length_cons, List.length_nil]
      omega
    refine ⟨([0x17, 0x03, 0x03] ++ be_u16 payload.length ++ payload) ++
        out_buf.drop (5 + payload.length), ?_, by omega, hbe, ?_, ?_⟩
    · simp only [back_to_front_step, if_neg hn0, Option.some.injEq, Prod.mk.injEq]
      exact ⟨hb2, by rw [hb2]; exact List.take_left' hPlen⟩
    · simp only [List.length_append, hPlen, List.length_drop]
      omega
    · rw [List.append_assoc, List.append_assoc]
      exact List.take_left' rfl

/-- Witness for C3: a single payload byte `0xAB` re-framed through the
initial working buffer. -/
theorem c3_witness :
    ∃ buf', back_to_front_step out_buf_init [0xAB] =
        some (buf', [0x17, 0x03, 0x03] ++ be_u16 ([0xAB] : List Nat).length ++ [0xAB]) ∧
      ([0x17, 0x03, 0x03] ++ be_u16 ([0xAB] : List Nat).length ++ [0xAB]).length
          = 5 + ([0xAB] : List Nat).length ∧
      be_u16 ([0xAB] : List Nat).length =
        [([0xAB] : List Nat).length / 256, ([0xAB] : List Nat).length % 256] ∧
      buf'.length = 0x2000 ∧ buf'.take 3 = [0x17, 0x03, 0x03] :=
  (c3_back_to_front out_buf_init [0xAB] out_buf_init_length out_buf_init_take3
    (by norm_num)).2 (by norm_num)

/-! ## Claim C4: the unwrap relay's drain phase -/

theorem flat_length (r : TLSRecord) : r.flat.length = 5 + r.payload.length := by
  simp only [TLSRecord.flat, List.length_cons]
  omega

theorem recordsFlat_cons (r : TLSRecord) (rest : List TLSRecord) :
    recordsFlat (r :: rest) = r.flat ++ recordsFlat rest := by
  simp [recordsFlat]

theorem recordsFlat_length_ge (rs : List TLSRecord) :
    rs.length ≤ (recordsFlat rs).length := by
  induction rs with
  | nil => simp [recordsFlat]
  | cons r rest ih =>
    rw [recordsFlat_cons]
    simp only [List.length_append, List.length_cons]
    have := flat_length r
    omega

theorem peek_record_length_at (pre tail : List Nat) (r : TLSRecord)
    (hpl : r.payload.length < 65536) :
    peek_record_length (pre ++ (r.flat ++ tail)) pre.length = 5 + r.payload.length := by
  have hfl := flat_length r
  have h3 : (pre ++ (r.flat ++ tail)).getD (pre.length + 3) 0 = r.payload.length / 256 := by
    rw [List.getD_append_right _ _ _ _ (by omega),
      show pre.length + 3 - pre.length = 3 by omega,
      List.getD_append _ _ _ _ (by omega)]
    simp [TLSRecord.flat]
  have h4 : (pre ++ (r.flat ++ tail)).getD (pre.length + 4) 0 = r.payload.length % 256 := by
    rw [List.getD_append_right _ _ _ _ (by omega),
      show pre.length + 4 - pre.length = 4 by omega,
      List.getD_append _ _ _ _ (by omega)]
    simp [TLSRecord.flat]
  rw [peek_record_length, h3, h4, be16_eq]
  omega

theorem listSegment_at (pre l : List Nat) (m : Nat) :
    listSegment (pre ++ l) pre.length (pre.length + m) = l.take m := by
  rw [listSegment, List.take_append]
  exact List.drop_left _ _

theorem drain_loop_spec (rs : List TLSRecord) :
    ∀ (fuel : Nat) (pre : List Nat) (c : TLSCodec) (off : Nat),
      rs.length ≤ fuel →
      c.buf = pre ++ recordsFlat rs →
      c.cursor = pre.length →
      (∀ r ∈ rs, r.payload.length < 65536) →
      (∀ r0, rs.head? = some r0 → off ≤ r0.flat.length) →
      drain_loop fuel c off = some ({ c with cursor := c.buf.length }, drain_out rs off) := by
  induction rs with
  | nil =>
    intro fuel pre c off _ hbuf hcur _ _
    have hlen : c.cursor = c.buf.length := by
      rw [hbuf, hcur]
      simp [recordsFlat]
    have heq : ({ c with cursor := c.buf.length } : TLSCodec) = c := by
      cases c
      simp only [TLSCodec.mk.injEq, and_true, true_and]
      exact hlen.symm
    cases fuel with
    | zero =>
      rw [drain_loop, if_neg (by omega), heq]
      rfl
    | succ f =>
      rw [drain_loop, if_neg (by omega), heq]
      rfl
  | cons r rest ih =>
    intro fuel pre c off hfuel hbuf hcur hpl hoff
    have hoffr : off ≤ r.flat.length := hoff r rfl
    obtain ⟨f, rfl⟩ : ∃ f, fuel = f + 1 :=
      ⟨fuel - 1, by simp only [List.length_cons] at hfuel; omega⟩
    have hfl := flat_length r
    have hplr : r.payload.length < 65536 := hpl r (by simp)
    have hbuf' : c.buf = pre ++ (r.flat ++ recordsFlat rest) := by
      rw [hbuf, recordsFlat_cons]
    have hlenbuf : c.buf.length =
        pre.length + (5 + r.payload.length) + (recordsFlat rest).length := by
      rw [hbuf']
      simp only [List.length_append, hfl]
      omega
    have hnext : c.cursor < c.buf.length := by omega
    have hpeek : peek_record_length c.buf c.cursor = 5 + r.payload.length := by
      rw [hbuf', hcur]
      exact peek_record_length_at pre (recordsFlat rest) r hplr
    have hseg : listSegment c.buf c.cursor (c.cursor + (5 + r.payload.length)) = r.flat := by
      rw [hbuf', hcur, listSegment_at]
      exact List.take_left' hfl
    have hrec := ih f (pre ++ r.flat)
      { c with cursor := c.cursor + (5 + r.payload.length) } 5
      (by simp only [List.length_cons] at hfuel; omega)
      (by rw [hbuf']; simp [List.append_assoc])
      (by simp only [List.length_append, hfl, hcur])
      (fun x hx => hpl x (by simp [hx]))
      (fun r0 h0 => by have := flat_length r0; omega)
    have hg1 : ¬ c.buf.length < c.cursor + 5 := by omega
    have hg2 : ¬ c.buf.length < c.cursor + (5 + r.payload.length) := by omega
    have hg3 : ¬ (listSegment c.buf c.cursor (c.cursor + (5 + r.payload.length))).length
        < off := by
      rw [hseg]
      omega
    rw [drain_loop, if_pos hnext, if_neg hg1]
    simp only [hpeek]
    rw [if_neg hg2, if_neg hg3, hrec]
    simp only [hseg, drain_out]

theorem drain_out_tail (rs : List TLSRecord) :
    drain_out rs 5 = (rs.map fun x => x.flat.drop 5).flatten := by
  induction rs with
  | nil => rfl
  | cons r rest ih => simp [drain_out, ih]

/-- C4 counterexample: the original claim quantifies over every
`content_offset`, but `&next_record()[content_offset..]` panics when the
offset exceeds the first record's length: with one 7-byte record (payload
length 2) and `content_offset = 100`, the drain phase is fatal and writes
nothing, instead of writing "the first record with its first 100 bytes
removed". -/
theorem c4_counterexample :
    unwrap_drain ⟨recordsFlat [⟨0x17, 3, 3, [1, 2]⟩], 0, true, 0x2000⟩ 100 = none ∧
    (⟨0x17, 3, 3, [1, 2]⟩ : TLSRecord).flat.length = 7 := by
  decide

/-- C4 (amended): on a non-empty pre-decoded batch, provided
`content_offset` does not exceed the first record's length (otherwise the
slice `[content_offset..]` panics and the relay aborts, see
`c4_counterexample`), the drain phase of `copy_bidirectional` writes to the
back connection the first record with its first `content_offset` bytes
removed, then every later record with exactly its 5-byte header removed,
and then resets the codec (buffer logically empty, capacity and mode
preserved). -/
theorem c4_unwrap_drain (r : TLSRecord) (rest : List TLSRecord) (c : TLSCodec) (off : Nat)
    (hbuf : c.buf = recordsFlat (r :: rest)) (hcur : c.cursor = 0)
    (hpl : ∀ x ∈ r :: rest, x.payload.length < 65536)
    (hoff : off ≤ r.flat.length) :
    unwrap_drain c off = some ({ c with buf := [], cursor := 0 },
      r.flat.drop off ++ (rest.map fun x => x.flat.drop 5).flatten) := by
  have hfuel : (r :: rest).length ≤ c.buf.length + 1 := by
    have := recordsFlat_length_ge (r :: rest)
    rw [hbuf]
    omega
  have hspec := drain_loop_spec (r :: rest) (c.buf.length + 1) [] c off hfuel
    (by simpa using hbuf) (by simpa using hcur) hpl
    (fun r0 h0 => by
      simp only [List.head?_cons, Option.some.injEq] at h0
      rw [← h0]
      exact hoff)
  rw [unwrap_drain, drain_records, hspec]
  simp [TLSCodec.reset, drain_out, drain_out_tail]

/-- Witness for C4: two concrete records, content offset 6 into the first. -/
theorem c4_witness :
    unwrap_drain ⟨recordsFlat [⟨0x17, 3, 3, [1, 2]⟩, ⟨0x16, 3, 3, [9]⟩], 0, true, 0x2000⟩ 6 =
      some (⟨[], 0, true, 0x2000⟩,
        (⟨0x17, 3, 3, [1, 2]⟩ : TLSRecord).flat.drop 6 ++
          (([⟨0x16, 3, 3, [9]⟩] : List TLSRecord).map fun x => x.flat.drop 5).flatten) :=
  c4_unwrap_drain ⟨0x17, 3, 3, [1, 2]⟩ [⟨0x16, 3, 3, [9]⟩]
    ⟨recordsFlat [⟨0x17, 3, 3, [1, 2]⟩, ⟨0x16, 3, 3, [9]⟩], 0, true, 0x2000⟩ 6
    rfl rfl (by decide) (by decide)

end Restls
